import Mathlib

/-!
Verification of the batch image-maintenance utility `imageResizer.py`
(Z-Assistant repository).

The program is shallowly embedded: filenames are lists of characters,
the file system and the imaging library are modelled as an explicit
`Effects` oracle (directory listings, per-file success flags, decoded
image dimensions), and every Python function of the source becomes a
Lean function of the same name.  Exceptions that the Python code lets
escape are modelled with `Except`; exceptions it catches become logged
messages in the result.
-/

/-- A filename (or path): a Python string, modelled as a list of characters. -/
abbrev FName := List Char

/-- `s.replace c ''` of Python: removes every occurrence of character `c`. -/
def removeAll (c : Char) (s : FName) : FName :=
  s.filter (fun a => a ≠ c)

/-- `clean_filename` (imageResizer.py lines 6-13): three successive
`str.replace` calls removing spaces, `'('` and `')'`. -/
def clean_filename (filename : FName) : FName :=
  removeAll ')' (removeAll '(' (removeAll ' ' filename))

/-- Python `pat in s` substring test (source line 24 uses `'_thumb' in filename`). -/
def containsSub (pat : FName) : FName → Bool
  | [] => pat.isEmpty
  | c :: rest => pat.isPrefixOf (c :: rest) || containsSub pat rest

/-- Python `str.lower()`, character-wise ASCII lowering. -/
def lowerName (s : FName) : FName :=
  s.map Char.toLower

/-- Python `str.split(sep)` on a single-character separator:
splitting `''` gives `['']`, adjacent separators give empty pieces. -/
def pySplit (sep : Char) : FName → List FName
  | [] => [[]]
  | c :: rest =>
    if c = sep then [] :: pySplit sep rest
    else
      match pySplit sep rest with
      | [] => [[c]]
      | h :: t => (c :: h) :: t

/-- `cleaned_filename.split('.')[-1].lower()` (source line 96): the piece of
the name after the last dot (the whole name when there is no dot), lower-cased. -/
def extOf (name : FName) : FName :=
  lowerName ((pySplit '.' name).getLastD [])

/-- `os.path.join(folder_path, name)`: the folder path, a separator, the name. -/
def pathJoin (folder name : FName) : FName :=
  folder ++ ('/' :: name)

/-- Python `int()` applied to a nonnegative-or-negative rational:
truncation toward zero, exactly `num tdiv den`. -/
def pyInt (q : ℚ) : ℤ :=
  q.num.tdiv q.den

/-- `(int(img.width * scale_factor), int(img.height * scale_factor))`:
the expression shared verbatim by source lines 52 and 132. -/
def newDimensions (w h : ℕ) (s : ℚ) : ℤ × ℤ :=
  (pyInt ((w : ℚ) * s), pyInt ((h : ℚ) * s))

/-- A raw GIF frame as produced by `imageio.get_reader`: its pixel
dimensions, plus a flag telling whether `Image.fromarray` /
`convert('RGB')` / `resize` raises on it (a corrupt frame). -/
structure RawFrame where
  width : ℕ
  height : ℕ
  corrupt : Bool
deriving DecidableEq

/-- A resized output frame: the dimensions computed by the code. -/
structure OutFrame where
  width : ℤ
  height : ℤ
deriving DecidableEq

/-- The animated file written by `imageio.mimsave`: frames plus the
per-frame display duration passed as `duration=0.1`. -/
structure GifOut where
  frames : List OutFrame
  duration : ℚ
deriving DecidableEq

/-- One loop body of `resize_gif` (source lines 46-57): a corrupt frame
raises and is dropped, any other frame is converted and resized. -/
def processFrame (s : ℚ) (fr : RawFrame) : Option OutFrame :=
  if fr.corrupt then none
  else some ⟨(newDimensions fr.width fr.height s).1, (newDimensions fr.width fr.height s).2⟩

/-- Log messages: one constructor per `print` call of the source. -/
inductive Msg where
  | deleted (path : FName)
  | errorDeletingFiles
  | errorProcessingFile (f : FName)
  | errorWritingImageList
  | errorProcessingFrame
  | resizedSavedGif (path : FName)
  | errorResizingGif (path : FName)
  | resizedSaved (path : FName)
  | errorResizingImage (f : FName)
deriving DecidableEq

/-- The environment oracle: outcomes of every OS / imaging-library call
the program can make.  `none` / `false` mean the call raises. -/
structure Effects where
  /-- `os.listdir` inside `delete_thumb_files` (line 23). -/
  listdir1 : Option (List FName)
  /-- whether `os.remove path` (line 26) succeeds. -/
  removeOk : FName → Bool
  /-- `os.listdir` of the catalog loop (line 86). -/
  listdir2 : Option (List FName)
  /-- whether `os.rename old new` (line 94) succeeds. -/
  renameOk : FName → FName → Bool
  /-- whether opening and writing `image_list.txt` (lines 104-109) succeeds. -/
  writeListOk : Bool
  /-- `os.listdir` of the thumbnail loop (line 114). -/
  listdir3 : Option (List FName)
  /-- `imageio.get_reader path` (line 43): `none` if it raises, otherwise the frames. -/
  gifDecode : FName → Option (List RawFrame)
  /-- whether `imageio.mimsave path ...` (line 60) succeeds. -/
  mimsaveOk : FName → Bool
  /-- `Image.open path` (line 130): `none` if it raises, otherwise (width, height). -/
  imageOpen : FName → Option (ℕ × ℕ)
  /-- whether `img.resize` + `img.save path` (lines 135-138) succeed. -/
  imageSaveOk : FName → Bool

/-- The `for filename in os.listdir(...)` loop of `delete_thumb_files`
(lines 23-27).  The `try` wraps the whole loop, so the first failing
`os.remove` raises out of the loop into the single `except` (line 28),
which logs once; nothing after it is attempted. -/
def deleteLoop (removeOk : FName → Bool) (folder : FName) : List FName → List Msg × List FName
  | [] => ([], [])
  | f :: rest =>
    if containsSub "_thumb".toList f then
      if removeOk (pathJoin folder f) then
        ((deleteLoop removeOk folder rest).1.cons (Msg.deleted (pathJoin folder f)),
         (deleteLoop removeOk folder rest).2.cons f)
      else ([Msg.errorDeletingFiles], [])
    else deleteLoop removeOk folder rest

/-- `delete_thumb_files` (lines 16-29): returns the log and the list of
files actually removed.  A failing `os.listdir` is caught by the same
`except` and logged. -/
def delete_thumb_files (eff : Effects) (folder : FName) : List Msg × List FName :=
  match eff.listdir1 with
  | none => ([Msg.errorDeletingFiles], [])
  | some files => deleteLoop eff.removeOk folder files

/-- The `for frame in reader` loop of `resize_gif` (lines 46-57):
collects the resized frames, logging and dropping each corrupt frame. -/
def gifFrameLoop (s : ℚ) : List RawFrame → List OutFrame × List Msg
  | [] => ([], [])
  | fr :: rest =>
    match processFrame s fr with
    | some o => ((gifFrameLoop s rest).1.cons o, (gifFrameLoop s rest).2)
    | none => ((gifFrameLoop s rest).1, (gifFrameLoop s rest).2.cons Msg.errorProcessingFrame)

/-- `resize_gif` (lines 32-64).  Result: the file written at
`new_file_path` (`none` when nothing is written) and the log.  A failing
`get_reader` or `mimsave` is caught by the outer `except` (line 63). -/
def resize_gif (eff : Effects) (img_path new_file_path : FName) (scale_factor : ℚ) :
    Option GifOut × List Msg :=
  match eff.gifDecode img_path with
  | none => (none, [Msg.errorResizingGif img_path])
  | some frames =>
    if eff.mimsaveOk new_file_path then
      (some ⟨(gifFrameLoop scale_factor frames).1, mkRat 1 10⟩,
       (gifFrameLoop scale_factor frames).2 ++ [Msg.resizedSavedGif new_file_path])
    else
      (none, (gifFrameLoop scale_factor frames).2 ++ [Msg.errorResizingGif img_path])

/-- The fixed catalog dictionary `image_formats` (lines 75-80), an
insertion-ordered mapping from format tag to collected filenames. -/
abbrev Catalog := List (FName × List FName)

/-- `image_formats = {'png': [], 'jpg': [], 'jpeg': [], 'gif': []}`. -/
def initialFormats : Catalog :=
  [("png".toList, []), ("jpg".toList, []), ("jpeg".toList, []), ("gif".toList, [])]

/-- Ordered dictionary lookup (`file_extension in image_formats` and the
indexing `image_formats[file_extension]`). -/
def lookupFormat : Catalog → FName → Option (List FName)
  | [], _ => none
  | kv :: rest, k => if kv.1 = k then some kv.2 else lookupFormat rest k

/-- `image_formats[ext].append(name)`: appends to the lists of the
matching keys, leaving keys and order unchanged. -/
def addToFormat (cat : Catalog) (k v : FName) : Catalog :=
  cat.map (fun kv => if kv.1 = k then (kv.1, kv.2 ++ [v]) else kv)

/-- Lines 96-98 for one entry: catalog the cleaned name under its
extension when `file_extension in image_formats`. -/
def catAfterEntry (cat : Catalog) (f : FName) : Catalog :=
  if (lookupFormat cat (extOf (clean_filename f))).isSome then
    addToFormat cat (extOf (clean_filename f)) (clean_filename f)
  else cat

/-- The rename-and-catalog loop (lines 86-100).  Per entry: clean the
name, rename when the joined paths differ (a rename failure is the only
possible exception; it is logged and the entry is skipped), then catalog
the cleaned name when its extension is a key of the dictionary.
Returns the final catalog, the renames performed, and the log. -/
def catalogLoop (renameOk : FName → FName → Bool) (folder : FName) :
    List FName → Catalog → Catalog × List (FName × FName) × List Msg
  | [], cat => (cat, [], [])
  | f :: rest, cat =>
    if pathJoin folder f ≠ pathJoin folder (clean_filename f) ∧
        renameOk f (clean_filename f) = false then
      ((catalogLoop renameOk folder rest cat).1,
       (catalogLoop renameOk folder rest cat).2.1,
       Msg.errorProcessingFile f :: (catalogLoop renameOk folder rest cat).2.2)
    else
      ((catalogLoop renameOk folder rest (catAfterEntry cat f)).1,
       (if pathJoin folder f ≠ pathJoin folder (clean_filename f) then
          [(f, clean_filename f)] else []) ++
         (catalogLoop renameOk folder rest (catAfterEntry cat f)).2.1,
       (catalogLoop renameOk folder rest (catAfterEntry cat f)).2.2)

/-- The manifest writer loop (lines 105-109): for each dictionary entry,
a `Format: <fmt>` line, one `- <file>` line per catalogued file, and one
blank line.  A line is a string without its trailing newline. -/
def manifestLines (cat : Catalog) : List FName :=
  cat.flatMap (fun kv =>
    (("Format: ".toList ++ kv.1) :: kv.2.map (fun v => "- ".toList ++ v)) ++ [[]])

/-- The tuple of extensions in `filename.lower().endswith(('.png', '.jpg', '.jpeg', '.gif'))`. -/
def recognizedSuffixes : List FName :=
  [".png".toList, ".jpg".toList, ".jpeg".toList, ".gif".toList]

/-- The dispatch test of source line 115. -/
def hasRecognizedSuffix (f : FName) : Bool :=
  recognizedSuffixes.any (fun sfx => sfx.isSuffixOf (lowerName f))

/-- Index of the last `'.'` in a name, if any. -/
def lastDotIdx (p : FName) : Option ℕ :=
  (p.reverse.findIdx? (fun c => c = '.')).map (fun j => p.length - 1 - j)

/-- `os.path.splitext` (line 120) for a plain basename: split at the last
dot, except that a name whose characters before that dot are all dots
(e.g. `'.gif'`) has no extension. -/
def splitext (p : FName) : FName × FName :=
  match lastDotIdx p with
  | none => (p, [])
  | some i => if (p.take i).any (fun c => c ≠ '.') then (p.take i, p.drop i) else (p, [])

/-- `f"{name}_thumb{ext}"` (line 121). -/
def thumbName (f : FName) : FName :=
  (splitext f).1 ++ "_thumb".toList ++ (splitext f).2

/-- A thumbnail file written by the third stage: its path and content. -/
inductive Thumb where
  | staticImg (path : FName) (dims : ℤ × ℤ)
  | gifImg (path : FName) (out : GifOut)
deriving DecidableEq

/-- One iteration of the thumbnail loop (lines 114-142): skip
unrecognized names, dispatch `.gif` names to `resize_gif`, open / resize
/ save the rest, catching per-file failures. -/
def thumbStep (eff : Effects) (folder : FName) (s : ℚ) (f : FName) : List Thumb × List Msg :=
  if hasRecognizedSuffix f then
    if ".gif".toList.isSuffixOf (lowerName f) then
      match resize_gif eff (pathJoin folder f) (pathJoin folder (thumbName f)) s with
      | (some g, msgs) => ([Thumb.gifImg (pathJoin folder (thumbName f)) g], msgs)
      | (none, msgs) => ([], msgs)
    else
      match eff.imageOpen (pathJoin folder f) with
      | none => ([], [Msg.errorResizingImage f])
      | some wh =>
        if eff.imageSaveOk (pathJoin folder (thumbName f)) then
          ([Thumb.staticImg (pathJoin folder (thumbName f)) (newDimensions wh.1 wh.2 s)],
           [Msg.resizedSaved (pathJoin folder (thumbName f))])
        else ([], [Msg.errorResizingImage f])
  else ([], [])

/-- The thumbnail loop over the third directory listing. -/
def thumbLoop (eff : Effects) (folder : FName) (s : ℚ) : List FName → List Thumb × List Msg
  | [] => ([], [])
  | f :: rest =>
    ((thumbStep eff folder s f).1 ++ (thumbLoop eff folder s rest).1,
     (thumbStep eff folder s f).2 ++ (thumbLoop eff folder s rest).2)

/-- The observable outcome of one normally-terminating run. -/
structure RunResult where
  log : List Msg
  removed : List FName
  renames : List (FName × FName)
  manifest : Option (List FName)
  thumbs : List Thumb
deriving DecidableEq

/-- `resize_images_in_folder` (lines 67-142).  The two `os.listdir`
calls it performs itself (lines 86 and 114) are not inside any `try`,
so their failure raises out of the function: `Except.error`.  Every
other failure is caught and logged. -/
def resize_images_in_folder (eff : Effects) (folder : FName) (scale_factor : ℚ := mkRat 1 4) :
    Except Unit RunResult :=
  match eff.listdir2 with
  | none => Except.error ()
  | some files2 =>
    match eff.listdir3 with
    | none =>
      -- the cleanup and catalog stages did run before line 114 raised
      Except.error ()
    | some files3 =>
      Except.ok
        { log := (delete_thumb_files eff folder).1 ++
            (catalogLoop eff.renameOk folder files2 initialFormats).2.2 ++
            (if eff.writeListOk then [] else [Msg.errorWritingImageList]) ++
            (thumbLoop eff folder scale_factor files3).2
          removed := (delete_thumb_files eff folder).2
          renames := (catalogLoop eff.renameOk folder files2 initialFormats).2.1
          manifest := if eff.writeListOk then
              some (manifestLines (catalogLoop eff.renameOk folder files2 initialFormats).1)
            else none
          thumbs := (thumbLoop eff folder scale_factor files3).1 }

/-- Effects oracle for the C6 witness: decoding fails on path `d/a` and
succeeds with an empty frame list on path `d/b`. -/
def effC6 : Effects :=
  { listdir1 := some [], removeOk := fun _ => true, listdir2 := some [],
    renameOk := fun _ _ => true, writeListOk := true, listdir3 := some [],
    gifDecode := fun p => if p = pathJoin "d".toList "b".toList then some [] else none,
    mimsaveOk := fun _ => true, imageOpen := fun _ => none, imageSaveOk := fun _ => true }

/-- Effects oracle for the C7 witness: path `g` decodes to one good 4×6
frame followed by one corrupt frame. -/
def effC7 : Effects :=
  { listdir1 := some [], removeOk := fun _ => true, listdir2 := some [],
    renameOk := fun _ _ => true, writeListOk := true, listdir3 := some [],
    gifDecode := fun p => if p = "g".toList then some [⟨4, 6, false⟩, ⟨2, 2, true⟩] else none,
    mimsaveOk := fun _ => true, imageOpen := fun _ => none, imageSaveOk := fun _ => true }

/-- Effects oracle for the C2 counterexample: the listing succeeds with
two `_thumb` files, deleting the first fails, deleting the second would
succeed. -/
def effC2 : Effects :=
  { listdir1 := some ["a_thumb".toList, "b_thumb".toList],
    removeOk := fun p => decide (p ≠ pathJoin "d".toList "a_thumb".toList),
    listdir2 := some [], renameOk := fun _ _ => true, writeListOk := true,
    listdir3 := some [], gifDecode := fun _ => none, mimsaveOk := fun _ => true,
    imageOpen := fun _ => none, imageSaveOk := fun _ => true }

/-- Effects oracle for the C2 amended witness: `x_thumb` deletes fine,
`y_thumb` fails, `z_thumb` never gets attempted. -/
def effC2w : Effects :=
  { listdir1 := some ["x_thumb".toList, "p.png".toList, "y_thumb".toList, "z_thumb".toList],
    removeOk := fun p => decide (p ≠ pathJoin "d".toList "y_thumb".toList),
    listdir2 := some [], renameOk := fun _ _ => true, writeListOk := true,
    listdir3 := some [], gifDecode := fun _ => none, mimsaveOk := fun _ => true,
    imageOpen := fun _ => none, imageSaveOk := fun _ => true }

/-- Effects oracle for the C1 counterexample: every per-file operation
succeeds, but the orchestrator's own catalog-stage `os.listdir` raises. -/
def effC1 : Effects :=
  { listdir1 := some [], removeOk := fun _ => true, listdir2 := none,
    renameOk := fun _ _ => true, writeListOk := true, listdir3 := some [],
    gifDecode := fun _ => none, mimsaveOk := fun _ => true,
    imageOpen := fun _ => none, imageSaveOk := fun _ => true }

/-- Effects oracle for the C1 amended witness: both orchestrator
listings succeed while everything else fails. -/
def effC1w : Effects :=
  { listdir1 := none, removeOk := fun _ => false,
    listdir2 := some ["a (1).png".toList, "b.gif".toList],
    renameOk := fun _ _ => false, writeListOk := false,
    listdir3 := some ["a1.png".toList, "b.gif".toList],
    gifDecode := fun _ => none, mimsaveOk := fun _ => false,
    imageOpen := fun _ => none, imageSaveOk := fun _ => false }

/-- The manifest block the specification prescribes for one format: a
header line naming the format, one dash-prefixed line per catalogued
file in catalog order, and a trailing blank line even when the file
list is empty. -/
def specFormatBlock (fmt : FName) (files : List FName) : List FName :=
  (("Format: ".toList ++ fmt) :: files.map (fun v => "- ".toList ++ v)) ++ [[]]

/-- Effects oracle for the C5 witness: an empty folder, all writes succeed. -/
def effC5 : Effects :=
  { listdir1 := some [], removeOk := fun _ => true, listdir2 := some [],
    renameOk := fun _ _ => true, writeListOk := true, listdir3 := some [],
    gifDecode := fun _ => none, mimsaveOk := fun _ => true,
    imageOpen := fun _ => none, imageSaveOk := fun _ => true }

/-- The run `effC5` produces: no files, but a manifest with all four
format headers above empty lists. -/
def runC5 : RunResult :=
  { log := [], removed := [], renames := [],
    manifest := some ["Format: png".toList, [], "Format: jpg".toList, [],
      "Format: jpeg".toList, [], "Format: gif".toList, []],
    thumbs := [] }

/-- The path field of a written thumbnail. -/
def thumbPathOf : Thumb → FName
  | Thumb.staticImg p _ => p
  | Thumb.gifImg p _ => p

/-- Effects oracle for the C9 witness: a GIF that decodes to zero
frames, a static image whose decode fails, and an unrecognized file. -/
def effC9 : Effects :=
  { listdir1 := some [], removeOk := fun _ => true, listdir2 := some [],
    renameOk := fun _ _ => true, writeListOk := true,
    listdir3 := some ["clip.gif".toList, "pic.png".toList, "x.txt".toList],
    gifDecode := fun _ => some [], mimsaveOk := fun _ => true,
    imageOpen := fun _ => none, imageSaveOk := fun _ => true }

/-- The run `effC9` produces at scale factor 2. -/
def rC9 : RunResult :=
  { log := [Msg.resizedSavedGif (pathJoin "d".toList "clip_thumb.gif".toList),
      Msg.errorResizingImage "pic.png".toList],
    removed := [], renames := [],
    manifest := some ["Format: png".toList, [], "Format: jpg".toList, [],
      "Format: jpeg".toList, [], "Format: gif".toList, []],
    thumbs := [Thumb.gifImg (pathJoin "d".toList "clip_thumb.gif".toList)
      ⟨[], mkRat 1 10⟩] }

/-! ## Helper lemmas -/

/-- The three successive character removals amount to one filter. -/
theorem clean_filename_eq_filter (f : FName) :
    clean_filename f =
      f.filter (fun c => decide (c ≠ ' ') && decide (c ≠ '(') && decide (c ≠ ')')) := by
  unfold clean_filename removeAll
  rw [List.filter_filter, List.filter_filter]
  apply List.filter_congr
  intro a _
  by_cases h1 : a = ' ' <;> by_cases h2 : a = '(' <;> by_cases h3 : a = ')' <;>
    simp [h1, h2, h3]

theorem pyInt_eq_floor (q : ℚ) (h : 0 ≤ q) : pyInt q = ⌊q⌋ := by
  rw [pyInt, Rat.floor_def]
  exact Int.tdiv_eq_ediv (Rat.num_nonneg.mpr h) (Int.ofNat_zero_le q.den)

/-! ## C3 -/

/-- C3: `clean_filename` is idempotent, its result contains no space and no
parenthesis, and every other character of the input passes through
unchanged in order (the result is exactly the filter keeping the other
characters). -/
theorem clean_filename_spec (f : FName) :
    clean_filename (clean_filename f) = clean_filename f ∧
    ' ' ∉ clean_filename f ∧ '(' ∉ clean_filename f ∧ ')' ∉ clean_filename f ∧
    clean_filename f =
      f.filter (fun c => decide (c ≠ ' ') && decide (c ≠ '(') && decide (c ≠ ')')) := by
  refine ⟨?_, ?_, ?_, ?_, clean_filename_eq_filter f⟩
  · rw [clean_filename_eq_filter (clean_filename f), clean_filename_eq_filter f,
      List.filter_filter]
    exact List.filter_congr (fun a _ => by by_cases h : a = ' ' <;> simp [h])
  · rw [clean_filename_eq_filter f]
    intro hmem
    have := (List.mem_filter.mp hmem).2
    simp at this
  · rw [clean_filename_eq_filter f]
    intro hmem
    have := (List.mem_filter.mp hmem).2
    simp at this
  · rw [clean_filename_eq_filter f]
    intro hmem
    have := (List.mem_filter.mp hmem).2
    simp at this

/-! ## C4 -/

/-- C4: with a positive scale factor, both the static path (which computes
`newDimensions` directly, source line 132) and the animated path (which
computes them per frame, source line 52) produce output width
`floor(original_width * scale_factor)` and output height
`floor(original_height * scale_factor)`, the same factor `s` applied to
both axes. -/
theorem resize_dimensions_floor (s : ℚ) (hs : 0 < s) :
    (∀ w h : ℕ, newDimensions w h s = (⌊(w : ℚ) * s⌋, ⌊(h : ℚ) * s⌋)) ∧
    (∀ fr : RawFrame, fr.corrupt = false →
      processFrame s fr = some ⟨⌊(fr.width : ℚ) * s⌋, ⌊(fr.height : ℚ) * s⌋⟩) := by
  have key : ∀ w h : ℕ, newDimensions w h s = (⌊(w : ℚ) * s⌋, ⌊(h : ℚ) * s⌋) := by
    intro w h
    unfold newDimensions
    rw [pyInt_eq_floor _ (mul_nonneg (Nat.cast_nonneg w) hs.le),
      pyInt_eq_floor _ (mul_nonneg (Nat.cast_nonneg h) hs.le)]
  refine ⟨key, fun fr hfr => ?_⟩
  unfold processFrame
  rw [hfr, key fr.width fr.height]
  simp

/-- C4 witness: at scale factor 2 a 3×5 image gets dimensions 6×10. -/
theorem resize_dimensions_floor_witness :
    (0 : ℚ) < 2 ∧ newDimensions 3 5 2 = (6, 10) := by
  refine ⟨by norm_num, ?_⟩
  rw [(resize_dimensions_floor 2 (by norm_num)).1 3 5]
  rw [show ((3 : ℕ) : ℚ) * 2 = ((6 : ℤ) : ℚ) by norm_num,
    show ((5 : ℕ) : ℚ) * 2 = ((10 : ℤ) : ℚ) by norm_num]
  rw [Int.floor_intCast, Int.floor_intCast]

/-! ## GIF frame loop lemmas -/

theorem gifFrameLoop_fst (s : ℚ) (l : List RawFrame) :
    (gifFrameLoop s l).1 = l.filterMap (processFrame s) := by
  induction l with
  | nil => rfl
  | cons fr rest ih =>
    rw [gifFrameLoop, List.filterMap_cons]
    cases h : processFrame s fr <;> simp [h, ih]

theorem gifFrameLoop_snd (s : ℚ) (l : List RawFrame) :
    (gifFrameLoop s l).2 =
      List.replicate (l.countP (fun fr => fr.corrupt)) Msg.errorProcessingFrame := by
  induction l with
  | nil => rfl
  | cons fr rest ih =>
    rw [gifFrameLoop, List.countP_cons]
    by_cases hc : fr.corrupt
    · simp [processFrame, hc, ih, List.replicate_succ]
    · simp [processFrame, hc, ih]

theorem length_filterMap_processFrame (s : ℚ) (l : List RawFrame) :
    (l.filterMap (processFrame s)).length = l.countP (fun fr => !fr.corrupt) := by
  induction l with
  | nil => rfl
  | cons fr rest ih =>
    rw [List.filterMap_cons, List.countP_cons]
    by_cases hc : fr.corrupt <;> simp [processFrame, hc, ih]

theorem countP_corrupt_split (l : List RawFrame) :
    l.countP (fun fr => !fr.corrupt) + l.countP (fun fr => fr.corrupt) = l.length := by
  induction l with
  | nil => rfl
  | cons fr rest ih =>
    rw [List.countP_cons, List.countP_cons]
    by_cases hc : fr.corrupt <;> simp [hc] <;> omega

/-! ## C6 -/

/-- C6: in `resize_gif`, a failed initial decode aborts the whole
operation with a logged error and no output file, while a successful
decode (with the final encode succeeding) always writes an output file
containing exactly the frames that survived per-frame processing. -/
theorem resize_gif_failure_isolation (eff : Effects) (img target : FName) (s : ℚ) :
    (eff.gifDecode img = none →
      resize_gif eff img target s = (none, [Msg.errorResizingGif img])) ∧
    (∀ frames, eff.gifDecode img = some frames → eff.mimsaveOk target = true →
      (resize_gif eff img target s).1 =
        some ⟨frames.filterMap (processFrame s), mkRat 1 10⟩) := by
  constructor
  · intro h
    rw [resize_gif, h]
  · intro frames hdec hmim
    rw [resize_gif, hdec]
    simp [hmim, gifFrameLoop_fst]

/-- C6 witness: on the concrete oracle `effC6`, the failed decode of `d/a`
writes nothing and logs, and the successful decode of `d/b` writes a file. -/
theorem resize_gif_failure_isolation_witness :
    resize_gif effC6 (pathJoin "d".toList "a".toList) "t".toList 2 =
      (none, [Msg.errorResizingGif (pathJoin "d".toList "a".toList)]) ∧
    (resize_gif effC6 (pathJoin "d".toList "b".toList) "u".toList 2).1 =
      some ⟨([] : List RawFrame).filterMap (processFrame 2), mkRat 1 10⟩ :=
  ⟨(resize_gif_failure_isolation effC6 (pathJoin "d".toList "a".toList) "t".toList 2).1
      (by decide),
   (resize_gif_failure_isolation effC6 (pathJoin "d".toList "b".toList) "u".toList 2).2
      [] (by decide) (by decide)⟩

/-! ## C7 -/

/-- C7: a decoded GIF with exactly one corrupt frame yields an output
file with one frame fewer than the source, written with the fixed
per-frame duration 1/10, and a frame-processing error is logged. -/
theorem resize_gif_single_corrupt_frame (eff : Effects) (img target : FName) (s : ℚ)
    (frames : List RawFrame) (hdec : eff.gifDecode img = some frames)
    (hmim : eff.mimsaveOk target = true)
    (hone : frames.countP (fun fr => fr.corrupt) = 1) :
    ∃ g : GifOut, (resize_gif eff img target s).1 = some g ∧
      g.frames.length = frames.length - 1 ∧ g.duration = mkRat 1 10 ∧
      Msg.errorProcessingFrame ∈ (resize_gif eff img target s).2 := by
  have hlen := countP_corrupt_split frames
  refine ⟨⟨(gifFrameLoop s frames).1, mkRat 1 10⟩, ?_, ?_, rfl, ?_⟩
  · rw [resize_gif, hdec]
    simp [hmim]
  · rw [gifFrameLoop_fst, length_filterMap_processFrame]
    omega
  · rw [resize_gif, hdec]
    simp only [hmim, if_true]
    rw [gifFrameLoop_snd, hone]
    simp

/-- C7 witness: the two-frame source with one corrupt frame yields a
one-frame output of duration 1/10 and logs a frame error. -/
theorem resize_gif_single_corrupt_frame_witness :
    ([⟨4, 6, false⟩, ⟨2, 2, true⟩] : List RawFrame).countP (fun fr => fr.corrupt) = 1 ∧
    ∃ g : GifOut, (resize_gif effC7 "g".toList "t".toList 2).1 = some g ∧
      g.frames.length = ([⟨4, 6, false⟩, ⟨2, 2, true⟩] : List RawFrame).length - 1 ∧
      g.duration = mkRat 1 10 ∧
      Msg.errorProcessingFrame ∈ (resize_gif effC7 "g".toList "t".toList 2).2 :=
  ⟨by decide,
   resize_gif_single_corrupt_frame effC7 "g".toList "t".toList 2
     [⟨4, 6, false⟩, ⟨2, 2, true⟩] (by decide) (by decide) (by decide)⟩

/-- C2 counterexample: the listing has succeeded, `b_thumb` matches and
its deletion would succeed, yet after `a_thumb`'s deletion fails nothing
more is attempted: `b_thumb` is not deleted and only one error is
logged.  The `try` of `delete_thumb_files` wraps the whole loop, so
failure isolation is at stage granularity, not per file. -/
theorem delete_thumb_files_not_per_file :
    delete_thumb_files effC2 "d".toList = ([Msg.errorDeletingFiles], []) ∧
    containsSub "_thumb".toList "b_thumb".toList = true ∧
    effC2.removeOk (pathJoin "d".toList "b_thumb".toList) = true ∧
    "b_thumb".toList ∉ (delete_thumb_files effC2 "d".toList).2 := by
  refine ⟨by decide, by decide, by decide, ?_⟩
  intro h
  revert h
  decide

/-- C2 amended: once the directory listing has succeeded, the first
failing deletion of a `_thumb` file is logged once and aborts the
cleanup loop; files matching `_thumb` earlier in the listing are
deleted, and no file after the failing one is attempted. -/
theorem deleteLoop_aborts (removeOk : FName → Bool) (folder : FName) :
    ∀ (fs₁ : List FName) (f : FName) (fs₂ : List FName),
      (∀ g ∈ fs₁, containsSub "_thumb".toList g = true →
        removeOk (pathJoin folder g) = true) →
      containsSub "_thumb".toList f = true →
      removeOk (pathJoin folder f) = false →
      deleteLoop removeOk folder (fs₁ ++ f :: fs₂) =
        ((fs₁.filter (containsSub "_thumb".toList)).map
            (fun g => Msg.deleted (pathJoin folder g)) ++ [Msg.errorDeletingFiles],
          fs₁.filter (containsSub "_thumb".toList)) := by
  intro fs₁
  induction fs₁ with
  | nil =>
    intro f fs₂ _ h2 h3
    simp only [List.nil_append, deleteLoop, h2, if_true, h3, List.filter_nil, List.map_nil]
    rfl
  | cons g rest ih =>
    intro f fs₂ h1 h2 h3
    have hg := h1 g (List.mem_cons_self g rest)
    have ih2 := ih f fs₂ (fun x hx => h1 x (List.mem_cons_of_mem g hx)) h2 h3
    have step : deleteLoop removeOk folder ((g :: rest) ++ f :: fs₂) =
        if containsSub "_thumb".toList g then
          (if removeOk (pathJoin folder g) then
            ((deleteLoop removeOk folder (rest ++ f :: fs₂)).1.cons
                (Msg.deleted (pathJoin folder g)),
             (deleteLoop removeOk folder (rest ++ f :: fs₂)).2.cons g)
          else ([Msg.errorDeletingFiles], []))
        else deleteLoop removeOk folder (rest ++ f :: fs₂) := rfl
    by_cases hm : containsSub "_thumb".toList g
    · rw [step, if_pos hm, if_pos (hg hm), ih2, List.filter_cons_of_pos hm,
        List.map_cons]
      rfl
    · rw [step, if_neg hm, ih2, List.filter_cons_of_neg hm]

theorem delete_thumb_files_aborts_on_first_failure (eff : Effects) (folder : FName)
    (fs₁ : List FName) (f : FName) (fs₂ : List FName)
    (hls : eff.listdir1 = some (fs₁ ++ f :: fs₂))
    (h1 : ∀ g ∈ fs₁, containsSub "_thumb".toList g = true →
      eff.removeOk (pathJoin folder g) = true)
    (h2 : containsSub "_thumb".toList f = true)
    (h3 : eff.removeOk (pathJoin folder f) = false) :
    delete_thumb_files eff folder =
      ((fs₁.filter (containsSub "_thumb".toList)).map
          (fun g => Msg.deleted (pathJoin folder g)) ++ [Msg.errorDeletingFiles],
        fs₁.filter (containsSub "_thumb".toList)) := by
  rw [delete_thumb_files, hls]
  exact deleteLoop_aborts eff.removeOk folder fs₁ f fs₂ h1 h2 h3

/-- C2 amended witness: on `effC2w`, cleanup deletes `x_thumb`, logs one
error at `y_thumb`, and stops. -/
theorem delete_thumb_files_aborts_witness :
    delete_thumb_files effC2w "d".toList =
      (((["x_thumb".toList, "p.png".toList] : List FName).filter
          (containsSub "_thumb".toList)).map
          (fun g => Msg.deleted (pathJoin "d".toList g)) ++ [Msg.errorDeletingFiles],
        (["x_thumb".toList, "p.png".toList] : List FName).filter
          (containsSub "_thumb".toList)) :=
  delete_thumb_files_aborts_on_first_failure effC2w "d".toList
    ["x_thumb".toList, "p.png".toList] "y_thumb".toList ["z_thumb".toList]
    (by decide) (by decide) (by decide) (by decide)

/-- C1 counterexample: the `os.listdir` call at source line 86 is outside
every `try`, so its failure propagates out of
`resize_images_in_folder` as an exception instead of ending in a logged
message. -/
theorem orchestrator_raises_on_listing_failure :
    resize_images_in_folder effC1 "d".toList (mkRat 1 4) = Except.error () := by
  rfl

/-- C1 amended: provided the two directory listings the orchestrator
performs itself (source lines 86 and 114) succeed, no exception reaches
the caller — every other failure (the cleanup stage's listing and
deletions, per-file renames, the manifest write, per-image and per-frame
resize failures) is caught and logged, whatever the oracle answers. -/
theorem orchestrator_no_raise_when_listings_succeed (eff : Effects) (folder : FName) (s : ℚ)
    (h2 : eff.listdir2 ≠ none) (h3 : eff.listdir3 ≠ none) :
    ∃ r : RunResult, resize_images_in_folder eff folder s = Except.ok r := by
  rw [resize_images_in_folder]
  cases e2 : eff.listdir2 with
  | none => exact absurd e2 h2
  | some files2 =>
    cases e3 : eff.listdir3 with
    | none => exact absurd e3 h3
    | some files3 => exact ⟨_, rfl⟩

/-- C1 amended witness: with both orchestrator listings succeeding and
every other operation failing, the run still terminates normally. -/
theorem orchestrator_no_raise_witness :
    ∃ r : RunResult, resize_images_in_folder effC1w "d".toList (mkRat 1 4) = Except.ok r :=
  orchestrator_no_raise_when_listings_succeed effC1w "d".toList (mkRat 1 4)
    (by decide) (by decide)

/-! ## Catalog shape lemmas -/

theorem addToFormat_fst (cat : Catalog) (k v : FName) :
    (addToFormat cat k v).map Prod.fst = cat.map Prod.fst := by
  induction cat with
  | nil => rfl
  | cons kv rest ih =>
    by_cases h : kv.1 = k <;> simp [addToFormat, h] at * <;> exact ih

theorem catAfterEntry_fst (cat : Catalog) (f : FName) :
    (catAfterEntry cat f).map Prod.fst = cat.map Prod.fst := by
  unfold catAfterEntry
  split
  · exact addToFormat_fst cat _ _
  · rfl

theorem catalogLoop_fst_keys (ok : FName → FName → Bool) (folder : FName) :
    ∀ (files : List FName) (cat : Catalog),
      ((catalogLoop ok folder files cat).1).map Prod.fst = cat.map Prod.fst := by
  intro files
  induction files with
  | nil => intro cat; rfl
  | cons f rest ih =>
    intro cat
    by_cases hc : pathJoin folder f ≠ pathJoin folder (clean_filename f) ∧
        ok f (clean_filename f) = false
    · simp only [catalogLoop, if_pos hc]
      exact ih cat
    · simp only [catalogLoop, if_neg hc]
      rw [ih (catAfterEntry cat f), catAfterEntry_fst]

theorem cat_shape (cat : Catalog) (h : cat.map Prod.fst = initialFormats.map Prod.fst) :
    ∃ ps js es gs, cat =
      [("png".toList, ps), ("jpg".toList, js), ("jpeg".toList, es), ("gif".toList, gs)] := by
  rcases cat with _ | ⟨⟨a1, a2⟩, _ | ⟨⟨b1, b2⟩, _ | ⟨⟨c1, c2⟩, _ | ⟨⟨d1, d2⟩, rest⟩⟩⟩⟩ <;>
    simp [initialFormats] at h
  obtain ⟨ha, hb, hc, hd, hrest⟩ := h
  subst ha hb hc hd hrest
  exact ⟨a2, b2, c2, d2, rfl⟩

/-- C5: in every run whose manifest write succeeds, `image_list.txt`
consists of the blocks of the four formats in the fixed order png, jpg,
jpeg, gif — each a `Format:` header, one `- <file>` line per catalogued
file in catalog order, and a blank line, emitted even for empty lists. -/
theorem manifest_fixed_format_blocks (eff : Effects) (folder : FName) (s : ℚ)
    (r : RunResult) (hr : resize_images_in_folder eff folder s = Except.ok r)
    (hw : eff.writeListOk = true) :
    ∃ files2 ps js es gs,
      eff.listdir2 = some files2 ∧
      (catalogLoop eff.renameOk folder files2 initialFormats).1 =
        [("png".toList, ps), ("jpg".toList, js), ("jpeg".toList, es), ("gif".toList, gs)] ∧
      r.manifest = some
        (specFormatBlock "png".toList ps ++ specFormatBlock "jpg".toList js ++
          specFormatBlock "jpeg".toList es ++ specFormatBlock "gif".toList gs) := by
  rw [resize_images_in_folder] at hr
  cases e2 : eff.listdir2 with
  | none => rw [e2] at hr; exact absurd hr (by simp)
  | some files2 =>
    rw [e2] at hr
    cases e3 : eff.listdir3 with
    | none => rw [e3] at hr; exact absurd hr (by simp)
    | some files3 =>
      rw [e3] at hr
      obtain ⟨ps, js, es, gs, hcat⟩ :=
        cat_shape (catalogLoop eff.renameOk folder files2 initialFormats).1
          (catalogLoop_fst_keys eff.renameOk folder files2 initialFormats)
      refine ⟨files2, ps, js, es, gs, rfl, hcat, ?_⟩
      rw [Except.ok.injEq] at hr
      rw [← hr, hw]
      simp only [if_true]
      rw [hcat]
      simp [manifestLines, specFormatBlock]

/-- C5 witness: the empty-folder run writes exactly the four empty blocks. -/
theorem manifest_fixed_format_blocks_witness :
    ∃ files2 ps js es gs,
      effC5.listdir2 = some files2 ∧
      (catalogLoop effC5.renameOk "d".toList files2 initialFormats).1 =
        [("png".toList, ps), ("jpg".toList, js), ("jpeg".toList, es), ("gif".toList, gs)] ∧
      runC5.manifest = some
        (specFormatBlock "png".toList ps ++ specFormatBlock "jpg".toList js ++
          specFormatBlock "jpeg".toList es ++ specFormatBlock "gif".toList gs) :=
  manifest_fixed_format_blocks effC5 "d".toList (mkRat 1 4) runC5 rfl rfl

/-! ## pySplit lemmas: the piece after the last separator -/

theorem pySplit_ne_nil (sep : Char) : ∀ l : FName, pySplit sep l ≠ [] := by
  intro l
  cases l with
  | nil => simp [pySplit]
  | cons c rest =>
    by_cases hc : c = sep
    · simp [pySplit, hc]
    · simp only [pySplit, hc, if_false]
      cases h : pySplit sep rest <;> simp [h]

theorem pySplit_no_sep (sep : Char) : ∀ l : FName, sep ∉ l → pySplit sep l = [l] := by
  intro l
  induction l with
  | nil => intro _; rfl
  | cons c rest ih =>
    intro h
    have hc : ¬c = sep := fun e => h (e ▸ List.mem_cons_self c rest)
    have hr : sep ∉ rest := fun m => h (List.mem_cons_of_mem c m)
    simp [pySplit, hc, ih hr]

theorem pySplit_cons_ne (sep c : Char) (rest : FName) (hc : ¬c = sep)
    {h : FName} {t : List FName} (he : pySplit sep rest = h :: t) :
    pySplit sep (c :: rest) = (c :: h) :: t := by
  simp [pySplit, hc, he]

theorem pySplit_two_of_mem (sep : Char) : ∀ l : FName, sep ∈ l →
    ∃ h t, pySplit sep l = h :: t ∧ t ≠ [] := by
  intro l
  induction l with
  | nil => intro h; cases h
  | cons c rest ih =>
    intro hm
    by_cases hc : c = sep
    · exact ⟨[], pySplit sep rest, by simp [pySplit, hc], pySplit_ne_nil sep rest⟩
    · have hr : sep ∈ rest := by
        rcases List.mem_cons.mp hm with h | h
        · exact absurd h.symm hc
        · exact h
      obtain ⟨h, t, he, hne⟩ := ih hr
      exact ⟨c :: h, t, pySplit_cons_ne sep c rest hc he, hne⟩

theorem getLastD_of_ne_nil {α : Type} (l : List α) (hne : l ≠ []) (d d' : α) :
    l.getLastD d = l.getLastD d' := by
  cases l with
  | nil => exact absurd rfl hne
  | cons a t => rw [List.getLastD_cons, List.getLastD_cons]

/-- The last piece of `pySplit` really is the substring after the last
separator: the string decomposes around a final separator occurrence
followed by a separator-free tail. -/
theorem pySplit_last_decomp (sep : Char) : ∀ l : FName, sep ∈ l →
    ∃ pre, l = pre ++ sep :: ((pySplit sep l).getLastD []) ∧
      sep ∉ (pySplit sep l).getLastD [] := by
  intro l
  induction l with
  | nil => intro h; cases h
  | cons c rest ih =>
    intro hm
    by_cases hc : c = sep
    · subst hc
      have hsplit : pySplit c (c :: rest) = [] :: pySplit c rest := by simp [pySplit]
      rw [hsplit, List.getLastD_cons]
      by_cases hr : c ∈ rest
      · obtain ⟨pre, hpre, hnot⟩ := ih hr
        refine ⟨c :: pre, ?_, hnot⟩
        rw [List.cons_append, ← hpre]
      · rw [pySplit_no_sep c rest hr]
        exact ⟨[], by simp, hr⟩
    · have hr : sep ∈ rest := by
        rcases List.mem_cons.mp hm with h | h
        · exact absurd h.symm hc
        · exact h
      obtain ⟨h, t, he, hne⟩ := pySplit_two_of_mem sep rest hr
      rw [pySplit_cons_ne sep c rest hc he, List.getLastD_cons]
      have hlast : t.getLastD (c :: h) = (pySplit sep rest).getLastD [] := by
        rw [he, List.getLastD_cons]
        exact getLastD_of_ne_nil t hne _ _
      rw [hlast]
      obtain ⟨pre, hpre, hnot⟩ := ih hr
      refine ⟨c :: pre, ?_, hnot⟩
      rw [List.cons_append, ← hpre]

/-- On a name with a dot, the computed extension is the lower-cased
substring after the last dot. -/
theorem extOf_dot_decomp (c : FName) (h : '.' ∈ c) :
    ∃ pre tail, c = pre ++ '.' :: tail ∧ '.' ∉ tail ∧ extOf c = lowerName tail := by
  obtain ⟨pre, hpre, hnot⟩ := pySplit_last_decomp '.' c h
  exact ⟨pre, (pySplit '.' c).getLastD [], hpre, hnot, rfl⟩

/-- On a name with no dot, the computed extension is the whole
lower-cased name (Python's `split` returns the whole string, `[-1]`
does not raise). -/
theorem extOf_no_dot (c : FName) (h : '.' ∉ c) : extOf c = lowerName c := by
  rw [extOf, pySplit_no_sep '.' c h]
  rfl

/-! ## Catalog lookup lemmas -/

theorem pathJoin_inj (folder a b : FName) : pathJoin folder a = pathJoin folder b ↔ a = b := by
  unfold pathJoin
  rw [List.append_right_inj]
  exact List.cons.injEq '/' a '/' b ▸ by simp

theorem addToFormat_lookup (cat : Catalog) (k v k' : FName) :
    lookupFormat (addToFormat cat k v) k' =
      (lookupFormat cat k').map (fun vs => if k = k' then vs ++ [v] else vs) := by
  induction cat with
  | nil => rfl
  | cons kv rest ih =>
    by_cases h1 : kv.1 = k
    · by_cases h2 : kv.1 = k'
      · have hkk : k = k' := h1.symm.trans h2
        simp [addToFormat, lookupFormat, h1, h2, hkk]
      · have hkk : ¬k = k' := fun e => h2 (h1.trans e)
        simp only [addToFormat, List.map_cons] at *
        rw [if_pos h1]
        simp only [lookupFormat, h2, if_false, if_neg h2]
        exact ih
    · by_cases h2 : kv.1 = k'
      · have hkk : ¬k = k' := fun e => h1 (e ▸ h2)
        simp only [addToFormat, List.map_cons]
        rw [if_neg h1]
        simp [lookupFormat, h2, hkk]
      · simp only [addToFormat, List.map_cons]
        rw [if_neg h1]
        simp only [lookupFormat, h2, if_false, if_neg h2]
        exact ih

theorem lookupFormat_initial_values (k : FName) (vs : List FName) :
    lookupFormat initialFormats k = some vs → vs = [] := by
  intro h
  simp only [initialFormats, lookupFormat] at h
  split_ifs at h <;> simp at h <;> exact h

/-- The catalog loop appends, to each recognized format's list, exactly
the cleaned names whose computed extension is that format, in listing
order, provided every rename succeeds. -/
theorem catalogLoop_lookup (ok : FName → FName → Bool) (folder : FName)
    (hok : ∀ f g, ok f g = true) :
    ∀ (files : List FName) (cat : Catalog) (k : FName),
      lookupFormat ((catalogLoop ok folder files cat).1) k =
        (lookupFormat cat k).map
          (fun vs => vs ++ (files.map clean_filename).filter (fun c => extOf c = k)) := by
  intro files
  induction files with
  | nil =>
    intro cat k
    simp only [catalogLoop, List.map_nil, List.filter_nil]
    cases lookupFormat cat k <;> simp
  | cons f rest ih =>
    intro cat k
    have hcnot : ¬(pathJoin folder f ≠ pathJoin folder (clean_filename f) ∧
        ok f (clean_filename f) = false) := by
      rintro ⟨-, hfalse⟩
      rw [hok f (clean_filename f)] at hfalse
      cases hfalse
    simp only [catalogLoop, if_neg hcnot]
    rw [ih (catAfterEntry cat f) k]
    unfold catAfterEntry
    by_cases hsome : (lookupFormat cat (extOf (clean_filename f))).isSome
    · rw [if_pos hsome, addToFormat_lookup]
      by_cases hk : extOf (clean_filename f) = k
      · subst hk
        cases hl : lookupFormat cat (extOf (clean_filename f)) with
        | none => rw [hl] at hsome; simp at hsome
        | some vs =>
          simp [hl, List.filter_cons, List.append_assoc]
      · cases hl : lookupFormat cat k with
        | none => simp [hl]
        | some vs =>
          simp only [hl, Option.map_some, if_neg hk, List.map_cons, List.filter_cons]
          rw [if_neg (by simpa using hk)]
          simp
    · rw [if_neg hsome]
      by_cases hk : extOf (clean_filename f) = k
      · have hnone : lookupFormat cat k = none := by
          rw [← hk]
          exact Option.not_isSome_iff_eq_none.mp hsome
        simp [hnone]
      · cases hl : lookupFormat cat k with
        | none => simp [hl]
        | some vs =>
          simp only [hl, Option.map_some, List.map_cons, List.filter_cons]
          rw [if_neg (by simpa using hk)]

/-- With every rename succeeding, the catalog loop's renames are exactly
the entries whose cleaned name differs from the original, in listing
order. -/
theorem catalogLoop_renames (ok : FName → FName → Bool) (folder : FName)
    (hok : ∀ f g, ok f g = true) :
    ∀ (files : List FName) (cat : Catalog),
      (catalogLoop ok folder files cat).2.1 =
        (files.filter (fun f => clean_filename f ≠ f)).map
          (fun f => (f, clean_filename f)) := by
  intro files
  induction files with
  | nil => intro cat; rfl
  | cons f rest ih =>
    intro cat
    have hcnot : ¬(pathJoin folder f ≠ pathJoin folder (clean_filename f) ∧
        ok f (clean_filename f) = false) := by
      rintro ⟨-, hfalse⟩
      rw [hok f (clean_filename f)] at hfalse
      cases hfalse
    simp only [catalogLoop, if_neg hcnot]
    rw [ih (catAfterEntry cat f)]
    by_cases hd : clean_filename f = f
    · have hp : ¬pathJoin folder f ≠ pathJoin folder (clean_filename f) := by
        simp [pathJoin_inj, hd]
      rw [if_neg hp, List.filter_cons_of_neg (by simp [hd]), List.nil_append]
    · have hp : pathJoin folder f ≠ pathJoin folder (clean_filename f) := by
        rw [Ne, pathJoin_inj]
        exact fun e => hd e.symm
      rw [if_pos hp, List.filter_cons_of_pos (by simpa using hd), List.map_cons,
        List.singleton_append]

/-! ## C8 -/

/-- C8: for every listed entry (with renames succeeding), the extension
is the lower-cased substring after the last `'.'` of the cleaned name;
a recognized extension appends the cleaned name to that format's catalog
list in listing order; membership in any catalog list forces a matching
extension (so unrecognized extensions are catalogued nowhere); and every
entry whose cleaned name differs from the original is renamed. -/
theorem catalog_stage_extension_rule (ok : FName → FName → Bool) (folder : FName)
    (files : List FName) (hok : ∀ f g, ok f g = true) :
    (∀ k, (lookupFormat initialFormats k).isSome →
      lookupFormat ((catalogLoop ok folder files initialFormats).1) k =
        some ((files.map clean_filename).filter (fun c => extOf c = k))) ∧
    (∀ c : FName, '.' ∈ c →
      ∃ pre tail, c = pre ++ '.' :: tail ∧ '.' ∉ tail ∧ extOf c = lowerName tail) ∧
    (∀ k vs c, lookupFormat ((catalogLoop ok folder files initialFormats).1) k = some vs →
      c ∈ vs → extOf c = k) ∧
    ((catalogLoop ok folder files initialFormats).2.1 =
      (files.filter (fun f => clean_filename f ≠ f)).map
        (fun f => (f, clean_filename f))) := by
  refine ⟨?_, fun c h => extOf_dot_decomp c h, ?_,
    catalogLoop_renames ok folder hok files initialFormats⟩
  · intro k hk
    rw [catalogLoop_lookup ok folder hok files initialFormats k]
    obtain ⟨vs, hvs⟩ := Option.isSome_iff_exists.mp hk
    rw [hvs, lookupFormat_initial_values k vs hvs]
    simp
  · intro k vs c hl hm
    rw [catalogLoop_lookup ok folder hok files initialFormats k] at hl
    cases hinit : lookupFormat initialFormats k with
    | none => rw [hinit] at hl; simp at hl
    | some vs0 =>
      rw [hinit, lookupFormat_initial_values k vs0 hinit] at hl
      have hfl : vs = (files.map clean_filename).filter (fun c => decide (extOf c = k)) := by
        simpa using hl.symm
      rw [hfl] at hm
      exact of_decide_eq_true (List.mem_filter.mp hm).2

/-- C8 witness: listing `a (1).PNG` (renamed, catalogued under `png`)
and `x.txt` (renamed nowhere, catalogued nowhere). -/
theorem catalog_stage_extension_rule_witness :
    lookupFormat ((catalogLoop (fun _ _ => true) "d".toList
        ["a (1).PNG".toList, "x.txt".toList] initialFormats).1) "png".toList =
      some ["a1.PNG".toList] ∧
    (catalogLoop (fun _ _ => true) "d".toList
        ["a (1).PNG".toList, "x.txt".toList] initialFormats).2.1 =
      [("a (1).PNG".toList, "a1.PNG".toList)] :=
  ⟨((catalog_stage_extension_rule (fun _ _ => true) "d".toList
        ["a (1).PNG".toList, "x.txt".toList] (fun _ _ => rfl)).1
      "png".toList (by decide)).trans (by decide),
   ((catalog_stage_extension_rule (fun _ _ => true) "d".toList
        ["a (1).PNG".toList, "x.txt".toList] (fun _ _ => rfl)).2.2.2).trans (by decide)⟩

/-! ## Character lowering and dotless names -/

theorem char_ofNat_toNat (n : ℕ) (h : n.isValidChar) : (Char.ofNat n).toNat = n := by
  unfold Char.ofNat
  rw [dif_pos h]
  rfl

theorem toLower_eq_dot {c : Char} (h : c.toLower = '.') : c = '.' := by
  unfold Char.toLower at h
  simp only at h
  by_cases hr : c.toNat ≥ 65 ∧ c.toNat ≤ 90
  · rw [if_pos hr] at h
    exfalso
    have h2 := congrArg Char.toNat h
    rw [char_ofNat_toNat (c.toNat + 32) (Or.inl (by omega))] at h2
    have h3 : ('.').toNat = 46 := by decide
    omega
  · rw [if_neg hr] at h
    exact h

theorem dot_mem_of_lowerName {f : FName} (h : '.' ∈ lowerName f) : '.' ∈ f := by
  obtain ⟨c, hc, he⟩ := List.mem_map.mp h
  exact (toLower_eq_dot he) ▸ hc

/-- A name with no dot never passes the dispatch test of line 115: all
four recognized suffixes contain a dot. -/
theorem dotless_not_recognized (f : FName) (h : '.' ∉ f) :
    hasRecognizedSuffix f = false := by
  by_contra hne
  have htrue : hasRecognizedSuffix f = true := by
    revert hne; cases hasRecognizedSuffix f <;> simp
  obtain ⟨sfx, hsfx, hsuf⟩ := List.any_eq_true.mp htrue
  have hsuffix : sfx <:+ lowerName f := by simpa using hsuf
  obtain ⟨pre, hpre⟩ := hsuffix
  have hdot_sfx : '.' ∈ sfx := by fin_cases hsfx <;> decide
  have : '.' ∈ lowerName f := hpre ▸ List.mem_append.mpr (Or.inr hdot_sfx)
  exact h (dot_mem_of_lowerName this)

theorem thumbStep_skips_dotless (eff : Effects) (folder : FName) (s : ℚ) (f : FName)
    (h : '.' ∉ f) : thumbStep eff folder s f = ([], []) := by
  rw [thumbStep, dotless_not_recognized f h]
  simp

/-- A catalogued file's dash line occurs among the manifest lines. -/
theorem manifestLines_mem (k v : FName) :
    ∀ (cat : Catalog) (vs : List FName), lookupFormat cat k = some vs → v ∈ vs →
      ("- ".toList ++ v) ∈ manifestLines cat := by
  intro cat
  induction cat with
  | nil => intro vs h; simp [lookupFormat] at h
  | cons kv rest ih =>
    intro vs h hm
    rw [manifestLines, List.flatMap_cons]
    by_cases hk : kv.1 = k
    · simp only [lookupFormat, if_pos hk, Option.some.injEq] at h
      apply List.mem_append.mpr
      exact Or.inl (List.mem_append.mpr (Or.inl
        (List.mem_cons_of_mem _ (List.mem_map.mpr ⟨v, h ▸ hm, rfl⟩))))
    · simp only [lookupFormat, if_neg hk] at h
      exact List.mem_append.mpr (Or.inr (ih vs h hm))

/-! ## C10 -/

/-- C10 counterexample: `PNG` is a dot-less name other than the four
lower-case format names, yet the code lower-cases before the membership
test, so a file named `PNG` is catalogued (under `png`) — the claim says
it is catalogued nowhere. -/
theorem dotless_catalog_counterexample :
    ('.' ∉ ("PNG".toList : FName)) ∧
    (("PNG".toList : FName) ∉
      (["png".toList, "jpg".toList, "jpeg".toList, "gif".toList] : List FName)) ∧
    lookupFormat ((catalogLoop (fun _ _ => true) "d".toList ["PNG".toList]
        initialFormats).1) "png".toList = some ["PNG".toList] := by
  decide

/-- C10 amended: a dot-less cleaned name raises nothing — its computed
extension is the whole lower-cased name — so a file whose cleaned name
lower-cases to `png`, `jpg`, `jpeg` or `gif` (not only the four exact
lower-case names) is catalogued under that format and its dash line
appears in the manifest; a dot-less name whose lower-casing is not a
format key is catalogued nowhere; and no dot-less file is ever
thumbnailed, since the thumbnail pass requires a dotted suffix. -/
theorem dotless_extension_rule (ok : FName → FName → Bool) (folder : FName)
    (files : List FName) (hok : ∀ f g, ok f g = true) :
    (∀ c : FName, '.' ∉ c → extOf c = lowerName c) ∧
    (∀ f, f ∈ files → '.' ∉ clean_filename f →
      (lookupFormat initialFormats (lowerName (clean_filename f))).isSome →
      ∃ vs, lookupFormat ((catalogLoop ok folder files initialFormats).1)
          (lowerName (clean_filename f)) = some vs ∧ clean_filename f ∈ vs ∧
        ("- ".toList ++ clean_filename f) ∈
          manifestLines ((catalogLoop ok folder files initialFormats).1)) ∧
    (∀ f k vs, '.' ∉ clean_filename f →
      (lookupFormat initialFormats (lowerName (clean_filename f))).isSome = false →
      lookupFormat ((catalogLoop ok folder files initialFormats).1) k = some vs →
      clean_filename f ∉ vs) ∧
    (∀ (eff : Effects) (s : ℚ) (f : FName), '.' ∉ f →
      thumbStep eff folder s f = ([], [])) := by
  refine ⟨fun c h => extOf_no_dot c h, ?_, ?_, fun eff s f h => thumbStep_skips_dotless eff folder s f h⟩
  · intro f hf hdot hkey
    set key := lowerName (clean_filename f) with hkeydef
    have hlook : lookupFormat ((catalogLoop ok folder files initialFormats).1) key =
        some ((files.map clean_filename).filter (fun c => extOf c = key)) := by
      rw [catalogLoop_lookup ok folder hok files initialFormats key]
      obtain ⟨vs, hvs⟩ := Option.isSome_iff_exists.mp hkey
      rw [hvs, lookupFormat_initial_values key vs hvs]
      simp
    have hmemfil : clean_filename f ∈
        (files.map clean_filename).filter (fun c => extOf c = key) := by
      apply List.mem_filter.mpr
      refine ⟨List.mem_map.mpr ⟨f, hf, rfl⟩, ?_⟩
      rw [extOf_no_dot (clean_filename f) hdot]
      simp [hkeydef]
    exact ⟨_, hlook, hmemfil, manifestLines_mem key (clean_filename f) _ _ hlook hmemfil⟩
  · intro f k vs hdot hkey hl hm
    rw [catalogLoop_lookup ok folder hok files initialFormats k] at hl
    cases hinit : lookupFormat initialFormats k with
    | none => rw [hinit] at hl; simp at hl
    | some vs0 =>
      rw [hinit, lookupFormat_initial_values k vs0 hinit] at hl
      have hfl : vs = (files.map clean_filename).filter (fun c => decide (extOf c = k)) := by
        simpa using hl.symm
      rw [hfl] at hm
      have hext : extOf (clean_filename f) = k :=
        of_decide_eq_true (List.mem_filter.mp hm).2
      rw [extOf_no_dot (clean_filename f) hdot] at hext
      rw [hext, hinit] at hkey
      simp at hkey

/-- C10 amended witness: `PNG` (dot-less) gets extension `png`, and a
file named `png` (dot-less) is catalogued and listed in the manifest. -/
theorem dotless_extension_rule_witness :
    extOf "PNG".toList = lowerName "PNG".toList ∧
    ∃ vs, lookupFormat ((catalogLoop (fun _ _ => true) "d".toList ["png".toList]
        initialFormats).1) (lowerName (clean_filename "png".toList)) = some vs ∧
      clean_filename "png".toList ∈ vs ∧
      ("- ".toList ++ clean_filename "png".toList) ∈
        manifestLines ((catalogLoop (fun _ _ => true) "d".toList ["png".toList]
          initialFormats).1) :=
  ⟨(dotless_extension_rule (fun _ _ => true) "d".toList ["png".toList]
      (fun _ _ => rfl)).1 "PNG".toList (by decide),
   (dotless_extension_rule (fun _ _ => true) "d".toList ["png".toList]
      (fun _ _ => rfl)).2.1 "png".toList (by decide) (by decide) (by decide)⟩

/-- `os.path.splitext` loses nothing: base and extension reassemble the name. -/
theorem splitext_append (p : FName) : (splitext p).1 ++ (splitext p).2 = p := by
  unfold splitext
  cases h : lastDotIdx p with
  | none => simp
  | some i =>
    by_cases ha : ∃ x ∈ List.take i p, ¬x = '.'
    · simp [ha, List.take_append_drop]
    · simp [ha]

theorem thumbLoop_fst (eff : Effects) (folder : FName) (s : ℚ) :
    ∀ files : List FName, (thumbLoop eff folder s files).1 =
      files.flatMap (fun f => (thumbStep eff folder s f).1) := by
  intro files
  induction files with
  | nil => rfl
  | cons f rest ih => rw [thumbLoop, List.flatMap_cons, ih]

theorem thumbLoop_snd (eff : Effects) (folder : FName) (s : ℚ) :
    ∀ files : List FName, (thumbLoop eff folder s files).2 =
      files.flatMap (fun f => (thumbStep eff folder s f).2) := by
  intro files
  induction files with
  | nil => rfl
  | cons f rest ih => rw [thumbLoop, List.flatMap_cons, ih]

/-- Every thumbnail emitted for an entry comes out at the
`<name-without-ext>_thumb<ext>` sibling path, through the branch matching
the entry's `.gif`-or-not dispatch. -/
theorem thumbStep_output_shape (eff : Effects) (folder : FName) (s : ℚ) (f : FName) :
    ∀ t ∈ (thumbStep eff folder s f).1,
      hasRecognizedSuffix f = true ∧
      thumbPathOf t = pathJoin folder (thumbName f) ∧
      (".gif".toList.isSuffixOf (lowerName f) = true →
        ∃ g, t = Thumb.gifImg (pathJoin folder (thumbName f)) g) ∧
      (".gif".toList.isSuffixOf (lowerName f) = false →
        ∃ d, t = Thumb.staticImg (pathJoin folder (thumbName f)) d) := by
  intro t ht
  by_cases hrec : hasRecognizedSuffix f = true
  case neg =>
    simp only [thumbStep] at ht
    rw [if_neg hrec] at ht
    simp at ht
  case pos =>
    refine ⟨hrec, ?_⟩
    simp only [thumbStep, hrec, if_true] at ht
    by_cases hgif : ".gif".toList.isSuffixOf (lowerName f) = true
    · rw [if_pos hgif] at ht
      cases hres : resize_gif eff (pathJoin folder f) (pathJoin folder (thumbName f)) s with
      | mk out msgs =>
        rw [hres] at ht
        cases out with
        | none => simp at ht
        | some g =>
          simp only [List.mem_singleton] at ht
          subst ht
          exact ⟨rfl, fun _ => ⟨g, rfl⟩, fun hc => absurd (hc ▸ hgif) (by decide)⟩
    · rw [if_neg hgif] at ht
      cases hop : eff.imageOpen (pathJoin folder f) with
      | none => rw [hop] at ht; simp at ht
      | some wh =>
        rw [hop] at ht
        by_cases hsave : eff.imageSaveOk (pathJoin folder (thumbName f)) = true
        · simp only [hsave, if_true, List.mem_singleton] at ht
          subst ht
          exact ⟨rfl, fun hc => absurd hc hgif, fun _ => ⟨newDimensions wh.1 wh.2 s, rfl⟩⟩
        · simp [hsave] at ht

/-- C9: the orchestrator defaults the scale factor to 1/4 (= 0.25); a
normal run's log is the cleanup log, then the catalog log, then the
manifest-write log, then the thumbnail log; its removals, renames and
manifest come from those stages in order; its thumbnails come from one
pass over the post-rename listing, skipping entries without a
recognized suffix; and every thumbnail is written at the
`<name-without-ext>_thumb<ext>` path in the same folder, through the
GIF branch exactly when the lower-cased name ends in `.gif`. -/
theorem orchestrator_contract (eff : Effects) (folder : FName) (s : ℚ)
    (files2 files3 : List FName) (r : RunResult)
    (h2 : eff.listdir2 = some files2) (h3 : eff.listdir3 = some files3)
    (hr : resize_images_in_folder eff folder s = Except.ok r) :
    (resize_images_in_folder eff folder = resize_images_in_folder eff folder (mkRat 1 4)) ∧
    (r.log = (delete_thumb_files eff folder).1 ++
      (catalogLoop eff.renameOk folder files2 initialFormats).2.2 ++
      (if eff.writeListOk then [] else [Msg.errorWritingImageList]) ++
      files3.flatMap (fun f => (thumbStep eff folder s f).2)) ∧
    (r.removed = (delete_thumb_files eff folder).2) ∧
    (r.renames = (catalogLoop eff.renameOk folder files2 initialFormats).2.1) ∧
    (r.manifest = if eff.writeListOk then
        some (manifestLines (catalogLoop eff.renameOk folder files2 initialFormats).1)
      else none) ∧
    (r.thumbs = files3.flatMap (fun f => (thumbStep eff folder s f).1)) ∧
    (∀ f, hasRecognizedSuffix f = false → thumbStep eff folder s f = ([], [])) ∧
    (∀ f, (splitext f).1 ++ (splitext f).2 = f) ∧
    (∀ t, t ∈ r.thumbs → ∃ f, f ∈ files3 ∧ hasRecognizedSuffix f = true ∧
      thumbPathOf t = pathJoin folder ((splitext f).1 ++ "_thumb".toList ++ (splitext f).2) ∧
      (".gif".toList.isSuffixOf (lowerName f) = true →
        ∃ g, t = Thumb.gifImg (pathJoin folder (thumbName f)) g) ∧
      (".gif".toList.isSuffixOf (lowerName f) = false →
        ∃ d, t = Thumb.staticImg (pathJoin folder (thumbName f)) d)) := by
  rw [resize_images_in_folder, h2, h3] at hr
  rw [Except.ok.injEq] at hr
  subst hr
  refine ⟨rfl, by rw [thumbLoop_snd], rfl, rfl, rfl, by rw [thumbLoop_fst], ?_, splitext_append, ?_⟩
  · intro f hf
    rw [thumbStep, hf]
    simp
  · intro t ht
    simp only [thumbLoop_fst] at ht
    obtain ⟨f, hf, hstep⟩ := List.mem_flatMap.mp ht
    obtain ⟨hrec, hpath, hgif, hstatic⟩ := thumbStep_output_shape eff folder s f t hstep
    exact ⟨f, hf, hrec, hpath, hgif, hstatic⟩

/-- C9 witness: on the concrete run `effC9`, the thumbnails come from
one pass over the third listing, `x.txt` is skipped, and omitting the
scale factor is the same as passing 1/4. -/
theorem orchestrator_contract_witness :
    rC9.thumbs = (["clip.gif".toList, "pic.png".toList, "x.txt".toList] : List FName).flatMap
      (fun f => (thumbStep effC9 "d".toList 2 f).1) ∧
    thumbStep effC9 "d".toList 2 "x.txt".toList = ([], []) ∧
    resize_images_in_folder effC9 "d".toList =
      resize_images_in_folder effC9 "d".toList (mkRat 1 4) := by
  have h := orchestrator_contract effC9 "d".toList 2 []
    ["clip.gif".toList, "pic.png".toList, "x.txt".toList] rC9 rfl rfl rfl
  exact ⟨h.2.2.2.2.2.1, h.2.2.2.2.2.2.1 "x.txt".toList (by decide), h.1⟩
